import Mathlib

/-!
Verification of the Movie-Recommendation-System repository.

The repository ships a React/TypeScript frontend (`src/frontend/react-app`)
whose API hook (`useAPI.ts`) is embedded below directly from its source.
The content-based recommendation core (feature builder, TF-IDF vectorizer,
similarity index, title resolver, recommendation service) is described by the
specification and the README but its backend source is not part of the
repository's files; those components are modelled here from the
specification's own words (each such definition's doc comment starts with
"Modelled from the spec:").
-/

/-! ## Frontend API hook (embedded from src/frontend/react-app/src/hooks/useAPI.ts) -/

/-- A JavaScript error value as the `catch` blocks of `useAPI.ts` observe it:
a `name` (`"AbortError"` for a cancelled fetch, `"Error"` for `new Error(...)`)
and a message. -/
structure JSError where
  name : String
  message : String
deriving DecidableEq, Repr

/-- Outcome of an awaited `fetch` call: either an HTTP response (its `ok` flag,
numeric `status`, the optional `detail` field of an error body, and the parsed
JSON `body`), or a rejection carrying a JavaScript error. -/
inductive FetchOutcome (α : Type) where
  | response (ok : Bool) (status : Nat) (detail : Option String) (body : α)
  | reject (e : JSError)
deriving DecidableEq

/-- The `{ results: [...] }` payload shape returned by `searchMovies`. -/
structure SearchPayload (α : Type) where
  results : List α
deriving DecidableEq, Repr

/-- The `{ recommendations: [...] }` payload shape returned by
`getRecommendations`. -/
structure RecPayload (α : Type) where
  recommendations : List α
deriving DecidableEq, Repr

/-- JavaScript's `String.prototype.trim`: the character list of `s` with
leading and trailing whitespace removed (`query.trim()` in `useAPI.ts`). -/
def jsTrim (s : String) : List Char :=
  ((s.toList.dropWhile Char.isWhitespace).reverse.dropWhile Char.isWhitespace).reverse

/-- The shared `catch` logic of `useAPI.ts`: an error named `"AbortError"` is
swallowed and replaced by the empty fallback payload, every other error is
rethrown. -/
def handleCatch {β : Type} (e : JSError) (onAbort : β) : Except JSError β :=
  if e.name = "AbortError" then .ok onAbort else .error e

/-- `searchMovies` from `useAPI.ts`: a query that is empty or whose trimmed
length is below 2 yields `{ results: [] }` without touching the cache or the
network; a cache hit returns the cached data without a request; otherwise a
request is issued and its outcome is run through the `try`/`catch` of the
source. The second component records whether a `fetch` was issued. -/
def searchMovies {α : Type} (query : String) (cache : Option (SearchPayload α))
    (fetch : FetchOutcome (SearchPayload α)) : Except JSError (SearchPayload α) × Bool :=
  if query = "" ∨ (jsTrim query).length < 2 then (.ok ⟨[]⟩, false)
  else
    match cache with
    | some d => (.ok d, false)
    | none =>
      match fetch with
      | .response ok status _ body =>
        if ok then (.ok body, true)
        else (handleCatch ⟨"Error", "Search failed: " ++ toString status⟩ ⟨[]⟩, true)
      | .reject e => (handleCatch e ⟨[]⟩, true)

/-- `getRecommendations` from `useAPI.ts`: a cache hit returns the cached data;
otherwise a request is issued, a non-ok response throws
`Error(errorData.detail || "Request failed: ...")`, and the `catch` block turns
an `AbortError` into `{ recommendations: [] }` and rethrows anything else. -/
def getRecommendations {α : Type} (cache : Option (RecPayload α))
    (fetch : FetchOutcome (RecPayload α)) : Except JSError (RecPayload α) × Bool :=
  match cache with
  | some d => (.ok d, false)
  | none =>
    match fetch with
    | .response ok status detail body =>
      if ok then (.ok body, true)
      else (handleCatch ⟨"Error", detail.getD ("Request failed: " ++ toString status)⟩ ⟨[]⟩, true)
    | .reject e => (handleCatch e ⟨[]⟩, true)

/-! ## Data model of the recommendation core -/

/-- Modelled from the spec: `MovieRecord` (§3) of the backend, whose source is
not among the repository's files — one catalog entry with its identifier,
display title, optional year/votes, and the metadata fields feeding the
feature builder. -/
structure MovieRecord where
  id : Nat
  primaryTitle : String
  externalId : Option String := none
  startYear : Option Nat := none
  numVotes : Option Nat := none
  genres : List String := []
  directors : List String := []
  writers : List String := []
  principalCast : List String := []
deriving DecidableEq, Repr

/-- A record's vote count with the optional field read as 0 when absent. -/
def votes (r : MovieRecord) : Nat := r.numVotes.getD 0

/-- Modelled from the spec: the per-category repetition weights of the feature
builder (§4.1); the backend source holding the concrete configuration is not
in the repository. -/
structure FeatureWeights where
  genres : Nat
  directors : Nat
  writers : Nat
  principalCast : Nat
deriving DecidableEq, Repr

/-- Each term of `ts` repeated `w` times, the repetition mechanism of §4.1. -/
def repeatEach (w : Nat) (ts : List String) : List String :=
  ts.flatMap (List.replicate w)

/-- ASCII lower-casing of one character. -/
def charLower (c : Char) : Char :=
  if 65 ≤ c.toNat ∧ c.toNat ≤ 90 then Char.ofNat (c.toNat + 32) else c

/-- ASCII lower-casing of a string. -/
def lowerStr (s : String) : String := String.mk (s.toList.map charLower)

/-- Modelled from the spec: `buildDocument` (§4.1) of the absent backend —
lower-cases each metadata field and concatenates the categories' tokens, each
repeated by its category weight; a person name stays one token. -/
def buildDocument (w : FeatureWeights) (r : MovieRecord) : List String :=
  repeatEach w.genres (r.genres.map lowerStr)
    ++ repeatEach w.directors (r.directors.map lowerStr)
    ++ repeatEach w.writers (r.writers.map lowerStr)
    ++ repeatEach w.principalCast (r.principalCast.map lowerStr)

/-! ## Vectorizer -/

/-- Append `t` to `acc` unless already present (first-seen order). -/
def insertNew {α : Type} [DecidableEq α] (acc : List α) (t : α) : List α :=
  if t ∈ acc then acc else acc ++ [t]

/-- The distinct elements of `l` in first-seen order. -/
def dedupList {α : Type} [DecidableEq α] (l : List α) : List α := l.foldl insertNew []

/-- Modelled from the spec: the vocabulary of the absent backend's vectorizer
(§4.2) — all distinct terms over the corpus, in deterministic first-seen
order. -/
def vocabOf (docs : List (List String)) : List String := dedupList docs.flatten

/-- Modelled from the spec: document frequency (§4.2) — the number of
documents containing `t` at least once. -/
def df (docs : List (List String)) (t : String) : Nat :=
  (docs.filter (fun d => t ∈ d)).length

/-- Modelled from the spec: term frequency (§4.2) — the raw count of `t` in
the document's token sequence. -/
def tf (d : List String) (t : String) : Nat := d.count t

/-- Modelled from the spec: smoothed inverse document frequency (§4.2),
`log((1 + N) / (1 + df)) + 1`. -/
noncomputable def idf (n dfc : Nat) : ℝ :=
  Real.log ((1 + n) / (1 + dfc)) + 1

/-- Modelled from the spec: the fitted `TfidfModel` (§3, §4.2) of the absent
backend, determined by the corpus documents it was fitted on. -/
structure TfidfModel where
  docs : List (List String)

/-- The fitted vocabulary of a model. -/
def TfidfModel.vocab (m : TfidfModel) : List String := vocabOf m.docs

/-- The fitted IDF weight of a term. -/
noncomputable def TfidfModel.idfOf (m : TfidfModel) (t : String) : ℝ :=
  idf m.docs.length (df m.docs t)

/-- Modelled from the spec: `fit` (§4.2) — builds the process-wide model from
the whole corpus. -/
def fit (docs : List (List String)) : TfidfModel := ⟨docs⟩

/-- The unnormalized TF-IDF coordinates of a document over the fitted
vocabulary: per-term `tf × idf`; terms outside the vocabulary have no
coordinate and contribute nothing. -/
noncomputable def rawVec (m : TfidfModel) (d : List String) : List ℝ :=
  m.vocab.map fun t => (tf d t : ℝ) * m.idfOf t

/-- Sum of squared coordinates. -/
def sumSq (v : List ℝ) : ℝ := (v.map fun x => x * x).sum

/-- Euclidean norm of a coordinate list. -/
noncomputable def l2norm (v : List ℝ) : ℝ := Real.sqrt (sumSq v)

/-- Modelled from the spec: `transform` (§4.2) — the L2-normalized TF-IDF
vector of a document, with normalization skipped for a zero vector. -/
noncomputable def transform (d : List String) (m : TfidfModel) : List ℝ :=
  if l2norm (rawVec m d) = 0 then rawVec m d
  else (rawVec m d).map fun x => x / l2norm (rawVec m d)

/-! ## Similarity index -/

/-- Sparse dot product of two coordinate lists. -/
def dot (u v : List ℝ) : ℝ := (List.zipWith (fun a b => a * b) u v).sum

/-- Modelled from the spec: the similarity index (§4.3) — the catalog records
next to the matrix of their fitted, normalized TF-IDF row vectors. -/
structure SimIndex where
  records : List MovieRecord
  matrix : List (List ℝ)

/-- Modelled from the spec: the offline build pipeline (§2, §6) — feature
builder, then vectorizer fit, then one transformed row per record. -/
noncomputable def buildIndex (w : FeatureWeights) (corpus : List MovieRecord) : SimIndex :=
  ⟨corpus,
    (corpus.map (buildDocument w)).map fun d => transform d (fit (corpus.map (buildDocument w)))⟩

/-- Cosine similarity of rows `i` and `j` of the index (rows out of range read
as the empty, zero vector). -/
def simScore (idx : SimIndex) (i j : Nat) : ℝ :=
  dot (idx.matrix.getD i []) (idx.matrix.getD j [])

/-- One entry of a ranking: a row index with its score and the tie-break data
(`numVotes`, record id) of its record. -/
structure Scored where
  rowIndex : Nat
  score : ℝ
  tieVotes : Nat
  movieId : Nat

/-- The ranking order of §3/§4.3: `a` precedes `b` when its score is larger,
with ties broken by `numVotes` descending and then by record id ascending. -/
def rankLE (a b : Scored) : Prop :=
  b.score < a.score ∨ (a.score = b.score ∧
    (b.tieVotes < a.tieVotes ∨ (a.tieVotes = b.tieVotes ∧ a.movieId ≤ b.movieId)))

/-- Boolean form of `rankLE` used by the sort. -/
noncomputable def rankLEb (a b : Scored) : Bool :=
  @decide (rankLE a b) (Classical.propDecidable _)

/-- A default record for out-of-range row reads. -/
def defaultRecord : MovieRecord :=
  { id := 0, primaryTitle := "" }

/-- The unsorted candidate entries of a ranking: every row except the excluded
one, scored against the query vector. -/
def candidates (idx : SimIndex) (q : List ℝ) (ex : Nat) : List Scored :=
  ((List.range idx.records.length).filter fun i => decide (i ≠ ex)).map fun i =>
    let r := idx.records.getD i defaultRecord
    ⟨i, dot q (idx.matrix.getD i []), votes r, r.id⟩

/-- Modelled from the spec: `rank` (§4.3) of the absent backend — scores every
row but the excluded one against the query vector and sorts descending by
score with the deterministic tie-break. -/
noncomputable def rank (idx : SimIndex) (q : List ℝ) (ex : Nat) : List Scored :=
  (candidates idx q ex).mergeSort rankLEb

/-! ## Title resolver -/

/-- Characters kept by title normalization: letters, digits and spaces;
punctuation is stripped. -/
def keepChar (c : Char) : Bool := c.isAlphanum || c = ' '

/-- Split a character list into its space-separated chunks. -/
def splitWs : List Char → List (List Char)
  | [] => [[]]
  | c :: cs =>
    let r := splitWs cs
    if c = ' ' then [] :: r
    else
      match r with
      | [] => [[c]]
      | w :: ws => (c :: w) :: ws

/-- The words of a character list: non-empty space-separated chunks. -/
def wordsOf (cs : List Char) : List (List Char) :=
  (splitWs cs).filter fun w => w ≠ []

/-- Drop one leading English article (`the`, `a`, `an`). -/
def stripArticle (ws : List (List Char)) : List (List Char) :=
  match ws with
  | w :: rest =>
    if w = ['t', 'h', 'e'] ∨ w = ['a'] ∨ w = ['a', 'n'] then rest else ws
  | [] => []

/-- Join words with single spaces. -/
def joinWords : List (List Char) → List Char
  | [] => []
  | [w] => w
  | w :: ws => w ++ ' ' :: joinWords ws

/-- Modelled from the spec: title normalization (§3, §4.4) — lower-case,
strip punctuation, strip one leading article, collapse whitespace. -/
def normalizeTitle (s : String) : List Char :=
  joinWords (stripArticle (wordsOf ((s.toList.map charLower).filter keepChar)))

/-- The sliding 3-character windows of a character list. -/
def triOf : List Char → List (List Char)
  | a :: b :: c :: rest => [a, b, c] :: triOf (b :: c :: rest)
  | _ => []

/-- The distinct trigrams of a character list. -/
def triSet (cs : List Char) : List (List Char) := dedupList (triOf cs)

/-- Number of trigrams shared by two character lists. -/
def interCount (a b : List Char) : Nat :=
  ((triSet a).filter fun t => t ∈ triSet b).length

/-- Number of trigrams occurring in either character list. -/
def uniCount (a b : List Char) : Nat := (dedupList (triSet a ++ triSet b)).length

/-- Modelled from the spec: trigram similarity (§4.4, glossary) — shared
trigrams over all trigrams (0 when neither string has a trigram, since
division by zero is 0). -/
def trigramSim (a b : List Char) : ℚ :=
  (interCount a b : ℚ) / (uniCount a b : ℚ)

/-- The resolver's minimum-similarity threshold (§4.4), exposed as a
parameter; 3/10 is the conventional trigram default. -/
def fuzzyThreshold : ℚ := 3 / 10

/-- The trigram score of a record's normalized title against the normalized
query. -/
def fuzzyScore (q : String) (r : MovieRecord) : ℚ :=
  trigramSim (normalizeTitle q) (normalizeTitle r.primaryTitle)

/-- Whether a record's fuzzy score reaches the threshold, computed by integer
cross-multiplication (`interCount / uniCount ≥ 3/10`). -/
def passesThreshold (q : String) (r : MovieRecord) : Bool :=
  let i := interCount (normalizeTitle q) (normalizeTitle r.primaryTitle)
  let u := uniCount (normalizeTitle q) (normalizeTitle r.primaryTitle)
  decide (u ≠ 0 ∧ 3 * u ≤ 10 * i)

/-- The records whose normalized title equals the normalized query
exactly (§4.4 step 1). -/
def exactMatches (q : String) (corpus : List MovieRecord) : List MovieRecord :=
  corpus.filter fun r => normalizeTitle r.primaryTitle = normalizeTitle q

/-- `r` is at least as canonical as `x`: strictly more votes, or equal votes
and an id no larger (§4.4's deterministic tie-break). -/
def canonRel (r x : MovieRecord) : Prop :=
  votes x < votes r ∨ (votes x = votes r ∧ r.id ≤ x.id)

/-- One step of the canonical choice: replace the current best by `c` when `c`
has strictly more votes, or equal votes and a strictly smaller id. -/
def pickBetter (best c : MovieRecord) : MovieRecord :=
  if votes best < votes c ∨ (votes c = votes best ∧ c.id < best.id) then c else best

/-- Among records sharing a normalized title, the deterministic §4.4/§3 choice:
highest `numVotes`, then lowest id. -/
def pickCanonical : List MovieRecord → Option MovieRecord
  | [] => none
  | r :: rs => some (rs.foldl pickBetter r)

/-- The records at or above the fuzzy threshold (§4.4 step 2). -/
def fuzzyCandidates (q : String) (corpus : List MovieRecord) : List MovieRecord :=
  corpus.filter (passesThreshold q)

/-- Modelled from the spec: the fuzzy step (§4.4) — the highest-scoring record
above the threshold, the earliest such record on equal scores. -/
def bestFuzzy (q : String) (corpus : List MovieRecord) : Option MovieRecord :=
  match fuzzyCandidates q corpus with
  | [] => none
  | r :: rs =>
    some (rs.foldl (fun best c => if fuzzyScore q best < fuzzyScore q c then c else best) r)

/-- Modelled from the spec: `resolve` (§4.4) of the absent backend — exact
normalized match first (with the deterministic tie-break), then, only when no
exact match exists and `fuzzy` is enabled, the fuzzy scan; otherwise
`NotFound` (here `none`). -/
def resolve (q : String) (fuzzy : Bool) (corpus : List MovieRecord) : Option MovieRecord :=
  match pickCanonical (exactMatches q corpus) with
  | some r => some r
  | none => if fuzzy then bestFuzzy q corpus else none

/-! ## Recommendation service -/

/-- Modelled from the spec: the request-level failure of §7 — the typed
not-found absence. -/
inductive RecFailure where
  | notFound
deriving DecidableEq, Repr

/-- Modelled from the spec: the successful output of `recommend` (§4.5) — the resolved
canonical title and the ranked results. -/
structure RecOutput where
  resolvedTitle : String
  results : List Scored

/-- The immutable `id → rowIndex` lookup of §4.5. -/
def rowOf (idx : SimIndex) (r : MovieRecord) : Option Nat :=
  idx.records.findIdx? fun x => decide (x.id = r.id)

/-- Modelled from the spec: `recommend` (§4.5) of the absent backend —
resolve the title, locate the row, rank all other rows against it and return
the top-`k`; a resolver `NotFound` propagates with no partial results. -/
noncomputable def recommend (title : String) (k : Nat) (fuzzy : Bool) (idx : SimIndex) :
    Except RecFailure RecOutput :=
  match resolve title fuzzy idx.records with
  | none => .error .notFound
  | some r =>
    match rowOf idx r with
    | none => .error .notFound
    | some i => .ok ⟨r.primaryTitle, (rank idx (idx.matrix.getD i []) i).take k⟩

/-! ## A small concrete corpus, used to instantiate proved properties -/

/-- A concrete record with a non-empty feature document. -/
def sampleA : MovieRecord :=
  { id := 1, primaryTitle := "The Matrix", numVotes := some 100,
    genres := ["Sci-Fi", "Action"], directors := ["Wachowski"] }

/-- A second concrete record sharing tokens with `sampleA`. -/
def sampleB : MovieRecord :=
  { id := 2, primaryTitle := "The Matrix Reloaded", numVotes := some 50,
    genres := ["Sci-Fi", "Action"], directors := ["Wachowski"] }

/-- A two-record corpus. -/
def sampleCorpus : List MovieRecord := [sampleA, sampleB]

/-- Concrete category weights. -/
def sampleWeights : FeatureWeights := ⟨2, 1, 1, 1⟩

/-! ## List and membership lemmas -/

theorem mem_insertNew {α : Type} [DecidableEq α] {acc : List α} {t x : α} :
    x ∈ insertNew acc t ↔ x ∈ acc ∨ x = t := by
  unfold insertNew
  split
  · rename_i h
    constructor
    · exact Or.inl
    · rintro (hx | rfl)
      · exact hx
      · exact h
  · simp

theorem mem_foldl_insertNew {α : Type} [DecidableEq α] (l : List α) :
    ∀ (acc : List α) (x : α), x ∈ l.foldl insertNew acc ↔ x ∈ acc ∨ x ∈ l := by
  induction l with
  | nil => simp
  | cons a l ih =>
    intro acc x
    rw [List.foldl_cons, ih, mem_insertNew]
    simp only [List.mem_cons]
    tauto

theorem mem_dedupList {α : Type} [DecidableEq α] {l : List α} {x : α} :
    x ∈ dedupList l ↔ x ∈ l := by
  unfold dedupList
  rw [mem_foldl_insertNew]
  simp

theorem mem_vocabOf {docs : List (List String)} {t : String} :
    t ∈ vocabOf docs ↔ ∃ d ∈ docs, t ∈ d := by
  unfold vocabOf
  rw [mem_dedupList, List.mem_flatten]

theorem df_le_length (docs : List (List String)) (t : String) :
    df docs t ≤ docs.length :=
  List.length_filter_le _ _

/-! ## Real-valued helper lemmas -/

theorem sumSq_nonneg (v : List ℝ) : 0 ≤ sumSq v := by
  apply List.sum_nonneg
  intro x hx
  obtain ⟨y, _, rfl⟩ := List.mem_map.mp hx
  exact mul_self_nonneg y

theorem sumSq_cons (a : ℝ) (v : List ℝ) : sumSq (a :: v) = a * a + sumSq v := by
  simp [sumSq]

theorem sumSq_eq_zero {v : List ℝ} (h : sumSq v = 0) : ∀ x ∈ v, x = 0 := by
  induction v with
  | nil => simp
  | cons a v ih =>
    rw [sumSq_cons] at h
    have ha : a * a = 0 ∧ sumSq v = 0 := by
      constructor <;> nlinarith [sumSq_nonneg v, mul_self_nonneg a]
    intro x hx
    rcases List.mem_cons.mp hx with rfl | hx
    · exact mul_self_eq_zero.mp ha.1
    · exact ih ha.2 x hx

theorem sumSq_replicate_zero (n : Nat) : sumSq (List.replicate n (0 : ℝ)) = 0 := by
  apply List.sum_eq_zero
  intro x hx
  obtain ⟨y, hy, rfl⟩ := List.mem_map.mp hx
  rw [List.eq_of_mem_replicate hy, mul_zero]

theorem one_le_idf {n dfc : Nat} (h : dfc ≤ n) : 1 ≤ idf n dfc := by
  unfold idf
  have hd : (0 : ℝ) < 1 + dfc := by positivity
  have hr : (1 : ℝ) ≤ (1 + n) / (1 + dfc) := by
    rw [le_div_iff₀ hd]
    have : (dfc : ℝ) ≤ n := Nat.cast_le.mpr h
    linarith
  have := Real.log_nonneg hr
  linarith

theorem idf_pos {n dfc : Nat} (h : dfc ≤ n) : 0 < idf n dfc :=
  lt_of_lt_of_le one_pos (one_le_idf h)

theorem dot_nil_left (v : List ℝ) : dot [] v = 0 := by simp [dot]

theorem dot_nil_right (v : List ℝ) : dot v [] = 0 := by simp [dot]

theorem dot_cons_cons (a b : ℝ) (u v : List ℝ) :
    dot (a :: u) (b :: v) = a * b + dot u v := by
  simp [dot]

theorem dot_le_half_sumSq (u : List ℝ) : ∀ v : List ℝ, dot u v ≤ (sumSq u + sumSq v) / 2 := by
  induction u with
  | nil =>
    intro v
    rw [dot_nil_left]
    have h0 : sumSq ([] : List ℝ) = 0 := by simp [sumSq]
    rw [h0]
    nlinarith [sumSq_nonneg v]
  | cons a u ih =>
    intro v
    cases v with
    | nil =>
      rw [dot_nil_right]
      have h0 : sumSq ([] : List ℝ) = 0 := by simp [sumSq]
      rw [h0]
      nlinarith [sumSq_nonneg (a :: u)]
    | cons b v =>
      rw [dot_cons_cons, sumSq_cons, sumSq_cons]
      nlinarith [ih v, sq_nonneg (a - b)]

theorem dot_nonneg_of_nonneg {u v : List ℝ} (hu : ∀ x ∈ u, 0 ≤ x) :
    (∀ x ∈ v, 0 ≤ x) → 0 ≤ dot u v := by
  induction u generalizing v with
  | nil => intro _; rw [dot_nil_left]
  | cons a u ih =>
    intro hv
    cases v with
    | nil => rw [dot_nil_right]
    | cons b v =>
      rw [dot_cons_cons]
      have h1 : 0 ≤ a * b :=
        mul_nonneg (hu a (List.mem_cons_self a u)) (hv b (List.mem_cons_self b v))
      have h2 : 0 ≤ dot u v :=
        ih (fun x hx => hu x (List.mem_cons_of_mem a hx))
          (fun x hx => hv x (List.mem_cons_of_mem b hx))
      linarith

theorem dot_self_eq_sumSq (v : List ℝ) : dot v v = sumSq v := by
  induction v with
  | nil => simp [dot, sumSq]
  | cons a v ih => rw [dot_cons_cons, sumSq_cons, ih]

theorem dot_zero_left {u : List ℝ} (hu : ∀ x ∈ u, x = 0) :
    ∀ v : List ℝ, dot u v = 0 := by
  induction u with
  | nil => intro v; rw [dot_nil_left]
  | cons a u ih =>
    intro v
    cases v with
    | nil => rw [dot_nil_right]
    | cons b v =>
      rw [dot_cons_cons, hu a (List.mem_cons_self a u),
        ih (fun x hx => hu x (List.mem_cons_of_mem a hx)) v, zero_mul, add_zero]

theorem dot_zero_right {v : List ℝ} (hv : ∀ x ∈ v, x = 0) :
    ∀ u : List ℝ, dot u v = 0 := by
  induction v with
  | nil => intro u; rw [dot_nil_right]
  | cons b v ih =>
    intro u
    cases u with
    | nil => rw [dot_nil_left]
    | cons a u =>
      rw [dot_cons_cons, hv b (List.mem_cons_self b v),
        ih (fun x hx => hv x (List.mem_cons_of_mem b hx)) u, mul_zero, zero_add]

theorem sumSq_map_div (v : List ℝ) (c : ℝ) :
    sumSq (v.map fun x => x / c) = sumSq v / (c * c) := by
  induction v with
  | nil => simp [sumSq]
  | cons a v ih =>
    rw [List.map_cons, sumSq_cons, sumSq_cons, ih, div_mul_div_comm, div_add_div_same]

theorem l2norm_eq_zero_iff {v : List ℝ} : l2norm v = 0 ↔ sumSq v = 0 := by
  unfold l2norm
  rw [Real.sqrt_eq_zero']
  constructor
  · intro h
    exact le_antisymm h (sumSq_nonneg v)
  · intro h
    exact le_of_eq h

theorem l2norm_mul_self (v : List ℝ) : l2norm v * l2norm v = sumSq v :=
  Real.mul_self_sqrt (sumSq_nonneg v)

/-! ## Properties of the transformed vectors -/

theorem rawVec_nonneg (m : TfidfModel) (d : List String) :
    ∀ x ∈ rawVec m d, 0 ≤ x := by
  intro x hx
  obtain ⟨t, _, rfl⟩ := List.mem_map.mp hx
  apply mul_nonneg (Nat.cast_nonneg _)
  exact le_of_lt (idf_pos (df_le_length m.docs t))

theorem transform_nonneg (m : TfidfModel) (d : List String) :
    ∀ x ∈ transform d m, 0 ≤ x := by
  intro x hx
  unfold transform at hx
  split at hx
  · exact rawVec_nonneg m d x hx
  · obtain ⟨y, hy, rfl⟩ := List.mem_map.mp hx
    exact div_nonneg (rawVec_nonneg m d y hy) (Real.sqrt_nonneg _)

theorem sumSq_transform (m : TfidfModel) (d : List String) :
    sumSq (transform d m) = 0 ∨ sumSq (transform d m) = 1 := by
  unfold transform
  split
  · rename_i h
    exact Or.inl (l2norm_eq_zero_iff.mp h)
  · rename_i h
    right
    rw [sumSq_map_div, l2norm_mul_self]
    have hne : sumSq (rawVec m d) ≠ 0 := fun hz => h (l2norm_eq_zero_iff.mpr hz)
    exact div_self hne

theorem sumSq_transform_le_one (m : TfidfModel) (d : List String) :
    sumSq (transform d m) ≤ 1 := by
  rcases sumSq_transform m d with h | h <;> rw [h] <;> norm_num

theorem rawVec_zero_of_oov {m : TfidfModel} {d : List String}
    (h : ∀ t ∈ d, t ∉ m.vocab) :
    rawVec m d = List.replicate m.vocab.length 0 := by
  have hz : ∀ x ∈ rawVec m d, x = (0 : ℝ) := by
    intro x hx
    obtain ⟨t, htv, rfl⟩ := List.mem_map.mp hx
    have htd : t ∉ d := fun hd => h t hd htv
    have : tf d t = 0 := by
      unfold tf
      exact List.count_eq_zero.mpr htd
    rw [this, Nat.cast_zero, zero_mul]
  have hlen : (rawVec m d).length = m.vocab.length := List.length_map _ _
  rw [← hlen]
  exact List.eq_replicate_of_mem hz

theorem transform_zero_of_oov {m : TfidfModel} {d : List String}
    (h : ∀ t ∈ d, t ∉ m.vocab) :
    transform d m = List.replicate m.vocab.length 0 := by
  have hr := rawVec_zero_of_oov h
  unfold transform
  have hz : l2norm (rawVec m d) = 0 := by
    rw [l2norm_eq_zero_iff, hr]
    exact sumSq_replicate_zero _
  rw [if_pos hz]
  exact hr

theorem sumSq_rawVec_pos {m : TfidfModel} {d : List String}
    (h : ∃ t ∈ d, t ∈ m.vocab) : 0 < sumSq (rawVec m d) := by
  obtain ⟨t, htd, htv⟩ := h
  have hx : ((tf d t : ℝ) * m.idfOf t) ∈ rawVec m d :=
    List.mem_map_of_mem _ htv
  have hxpos : 0 < (tf d t : ℝ) * m.idfOf t := by
    apply mul_pos
    · have : 0 < tf d t := by
        unfold tf
        exact List.count_pos_iff.mpr htd
      exact_mod_cast this
    · exact idf_pos (df_le_length m.docs t)
  have hsq : ((tf d t : ℝ) * m.idfOf t) * ((tf d t : ℝ) * m.idfOf t) ∈
      (rawVec m d).map fun x => x * x :=
    List.mem_map_of_mem _ hx
  have hle := List.single_le_sum (l := (rawVec m d).map fun x => x * x)
    (fun x hxm => by
      obtain ⟨y, _, rfl⟩ := List.mem_map.mp hxm
      exact mul_self_nonneg y) _ hsq
  have : 0 < ((tf d t : ℝ) * m.idfOf t) * ((tf d t : ℝ) * m.idfOf t) :=
    mul_pos hxpos hxpos
  unfold sumSq
  linarith

theorem sumSq_transform_eq_one {m : TfidfModel} {d : List String}
    (h : ∃ t ∈ d, t ∈ m.vocab) : sumSq (transform d m) = 1 := by
  have hpos := sumSq_rawVec_pos h
  have hnz : l2norm (rawVec m d) ≠ 0 := by
    rw [Ne, l2norm_eq_zero_iff]
    exact ne_of_gt hpos
  unfold transform
  rw [if_neg hnz, sumSq_map_div, l2norm_mul_self]
  exact div_self (ne_of_gt hpos)

theorem l2norm_transform_eq_one {m : TfidfModel} {d : List String}
    (h : ∃ t ∈ d, t ∈ m.vocab) : l2norm (transform d m) = 1 := by
  unfold l2norm
  rw [sumSq_transform_eq_one h]
  exact Real.sqrt_one

/-! ## Rows of a built index -/

theorem buildIndex_row_cases (w : FeatureWeights) (corpus : List MovieRecord) (i : Nat) :
    (buildIndex w corpus).matrix.getD i [] = [] ∨
      ∃ d, (buildIndex w corpus).matrix.getD i [] =
        transform d (fit (corpus.map (buildDocument w))) := by
  unfold buildIndex
  by_cases h :
      i < ((corpus.map (buildDocument w)).map
        fun d => transform d (fit (corpus.map (buildDocument w)))).length
  · right
    rw [List.getD_eq_getElem?_getD, List.getElem?_eq_getElem h]
    have hm := List.getElem_mem h
    obtain ⟨d, _, hd⟩ := List.mem_map.mp hm
    exact ⟨d, by rw [Option.getD_some, ← hd]⟩
  · left
    rw [List.getD_eq_getElem?_getD, List.getElem?_eq_none (le_of_not_lt h)]
    rfl

theorem buildIndex_row_props (w : FeatureWeights) (corpus : List MovieRecord) (i : Nat) :
    (∀ x ∈ (buildIndex w corpus).matrix.getD i [], 0 ≤ x) ∧
      sumSq ((buildIndex w corpus).matrix.getD i []) ≤ 1 := by
  rcases buildIndex_row_cases w corpus i with h | ⟨d, h⟩ <;> rw [h]
  · refine ⟨by simp, ?_⟩
    have : sumSq ([] : List ℝ) = 0 := by simp [sumSq]
    rw [this]
    norm_num
  · exact ⟨transform_nonneg _ _, sumSq_transform_le_one _ _⟩

theorem buildIndex_row_eq (w : FeatureWeights) (corpus : List MovieRecord) (i : Nat)
    (h : i < corpus.length) :
    (buildIndex w corpus).matrix.getD i [] =
      transform (buildDocument w (corpus.getD i defaultRecord))
        (fit (corpus.map (buildDocument w))) := by
  unfold buildIndex
  rw [List.getD_eq_getElem?_getD, List.getElem?_map, List.getElem?_map,
    List.getElem?_eq_getElem h, List.getD_eq_getElem?_getD, List.getElem?_eq_getElem h]
  rfl

/-! ## The ranking order -/

theorem rankLE_refl (a : Scored) : rankLE a a := by
  unfold rankLE
  right
  exact ⟨rfl, Or.inr ⟨rfl, le_refl _⟩⟩

theorem rankLE_trans {a b c : Scored} (hab : rankLE a b) (hbc : rankLE b c) :
    rankLE a c := by
  unfold rankLE at *
  rcases hab with h1 | ⟨h1, hv⟩ <;> rcases hbc with g1 | ⟨g1, gv⟩
  · exact Or.inl (g1.trans h1)
  · left
    rw [← g1]
    exact h1
  · left
    rw [h1]
    exact g1
  · right
    refine ⟨h1.trans g1, ?_⟩
    rcases hv with hv1 | ⟨hv1, hi1⟩ <;> rcases gv with gv1 | ⟨gv1, gi1⟩
    · left
      omega
    · left
      omega
    · left
      omega
    · right
      omega

theorem rankLEb_eq_true {a b : Scored} : rankLEb a b = true ↔ rankLE a b := by
  simp [rankLEb]

theorem rankLEb_total (a b : Scored) : (rankLEb a b || rankLEb b a) = true := by
  simp only [rankLEb, Bool.or_eq_true, decide_eq_true_eq]
  unfold rankLE
  rcases lt_trichotomy a.score b.score with h | h | h
  · right
    left
    exact h
  · rcases Nat.lt_trichotomy a.tieVotes b.tieVotes with hv | hv | hv
    · right
      right
      exact ⟨h.symm, Or.inl hv⟩
    · rcases Nat.le_total a.movieId b.movieId with hi | hi
      · left
        right
        exact ⟨h, Or.inr ⟨hv, hi⟩⟩
      · right
        right
        exact ⟨h.symm, Or.inr ⟨hv.symm, hi⟩⟩
    · left
      right
      exact ⟨h, Or.inl hv⟩
  · left
    left
    exact h

theorem rankLEb_trans (a b c : Scored) (hab : rankLEb a b = true)
    (hbc : rankLEb b c = true) : rankLEb a c = true := by
  rw [rankLEb_eq_true] at *
  exact rankLE_trans hab hbc

/-! ## Candidates and rank -/

theorem mem_candidates_ne {idx : SimIndex} {q : List ℝ} {ex : Nat} {s : Scored}
    (h : s ∈ candidates idx q ex) : s.rowIndex ≠ ex := by
  unfold candidates at h
  obtain ⟨i, hi, rfl⟩ := List.mem_map.mp h
  have h2 := (List.mem_filter.mp hi).2
  simpa using h2

theorem length_filter_range_ne (n ex : Nat) (h : ex < n) :
    ((List.range n).filter fun i => decide (i ≠ ex)).length = n - 1 := by
  induction n with
  | zero => exact absurd h (Nat.not_lt_zero ex)
  | succ n ih =>
    rw [List.range_succ, List.filter_append, List.length_append]
    by_cases hx : ex = n
    · subst hx
      have h1 : (List.range ex).filter (fun i => decide (i ≠ ex)) = List.range ex := by
        apply List.filter_eq_self.mpr
        intro a ha
        simp only [decide_eq_true_eq]
        have := List.mem_range.mp ha
        omega
      have h2 : [ex].filter (fun i => decide (i ≠ ex)) = [] := by simp
      rw [h1, h2]
      simp
    · have hex : ex < n := by omega
      rw [ih hex]
      have h2 : [n].filter (fun i => decide (i ≠ ex)) = [n] := by
        have : n ≠ ex := fun hc => hx hc.symm
        simp [this]
      rw [h2]
      simp only [List.length_cons, List.length_nil]
      omega

theorem length_candidates {idx : SimIndex} (q : List ℝ) {ex : Nat}
    (h : ex < idx.records.length) :
    (candidates idx q ex).length = idx.records.length - 1 := by
  unfold candidates
  rw [List.length_map, length_filter_range_ne _ _ h]

/-! ## Resolver lemmas -/

theorem canonRel_refl (r : MovieRecord) : canonRel r r := by
  unfold canonRel
  omega

theorem canonRel_trans {a b c : MovieRecord} (hab : canonRel a b) (hbc : canonRel b c) :
    canonRel a c := by
  unfold canonRel at *
  omega

theorem pickBetter_cases (b c : MovieRecord) :
    pickBetter b c = b ∨ pickBetter b c = c := by
  unfold pickBetter
  split
  · exact Or.inr rfl
  · exact Or.inl rfl

theorem canonRel_pickBetter_left (b c : MovieRecord) : canonRel (pickBetter b c) b := by
  unfold pickBetter
  split <;> unfold canonRel <;> rename_i h
  · omega
  · omega

theorem canonRel_pickBetter_right (b c : MovieRecord) : canonRel (pickBetter b c) c := by
  unfold pickBetter
  split <;> unfold canonRel <;> rename_i h
  · omega
  · push_neg at h
    rcases Nat.lt_or_ge (votes c) (votes b) with hv | hv
    · omega
    · omega

theorem foldl_pickBetter_spec (rs : List MovieRecord) :
    ∀ b : MovieRecord,
      (rs.foldl pickBetter b = b ∨ rs.foldl pickBetter b ∈ rs) ∧
        canonRel (rs.foldl pickBetter b) b ∧
        ∀ x ∈ rs, canonRel (rs.foldl pickBetter b) x := by
  induction rs with
  | nil =>
    intro b
    exact ⟨Or.inl rfl, canonRel_refl b, by simp⟩
  | cons c rs ih =>
    intro b
    rw [List.foldl_cons]
    obtain ⟨hmem, hb', hall⟩ := ih (pickBetter b c)
    refine ⟨?_, ?_, ?_⟩
    · rcases hmem with h | h
      · rcases pickBetter_cases b c with hc | hc
        · left
          rw [h, hc]
        · right
          rw [h, hc]
          exact List.mem_cons_self c rs
      · right
        exact List.mem_cons_of_mem c h
    · exact canonRel_trans hb' (canonRel_pickBetter_left b c)
    · intro x hx
      rcases List.mem_cons.mp hx with rfl | hx
      · exact canonRel_trans hb' (canonRel_pickBetter_right b x)
      · exact hall x hx

theorem pickCanonical_spec {l : List MovieRecord} (h : l ≠ []) :
    ∃ r, pickCanonical l = some r ∧ r ∈ l ∧ ∀ x ∈ l, canonRel r x := by
  cases l with
  | nil => exact absurd rfl h
  | cons a rs =>
    obtain ⟨hmem, hb, hall⟩ := foldl_pickBetter_spec rs a
    refine ⟨rs.foldl pickBetter a, rfl, ?_, ?_⟩
    · rcases hmem with h | h
      · rw [h]
        exact List.mem_cons_self a rs
      · exact List.mem_cons_of_mem a h
    · intro x hx
      rcases List.mem_cons.mp hx with rfl | hx
      · exact hb
      · exact hall x hx

theorem uniCount_zero {a b : List Char} (h : uniCount a b = 0) :
    triSet a = [] ∧ triSet b = [] ∧ interCount a b = 0 := by
  unfold uniCount at h
  have hd : dedupList (triSet a ++ triSet b) = [] := List.length_eq_zero.mp h
  have hab : triSet a ++ triSet b = [] := by
    rw [List.eq_nil_iff_forall_not_mem]
    intro x hx
    have hm : x ∈ dedupList (triSet a ++ triSet b) := mem_dedupList.mpr hx
    rw [hd] at hm
    exact List.not_mem_nil x hm
  obtain ⟨h1, h2⟩ := List.append_eq_nil.mp hab
  refine ⟨h1, h2, ?_⟩
  unfold interCount
  rw [h1]
  rfl

theorem passes_false_iff (q : String) (r : MovieRecord) :
    passesThreshold q r = false ↔ fuzzyScore q r < fuzzyThreshold := by
  unfold passesThreshold fuzzyScore trigramSim fuzzyThreshold
  rw [decide_eq_false_iff_not]
  constructor
  · intro h
    push_neg at h
    by_cases hu : uniCount (normalizeTitle q) (normalizeTitle r.primaryTitle) = 0
    · obtain ⟨-, -, hi⟩ := uniCount_zero hu
      rw [hi, hu]
      norm_num
    · have h10 := h hu
      have hup : (0 : ℚ) < uniCount (normalizeTitle q) (normalizeTitle r.primaryTitle) :=
        Nat.cast_pos.mpr (Nat.pos_of_ne_zero hu)
      rw [div_lt_div_iff₀ hup (by norm_num)]
      exact_mod_cast (by omega :
        interCount (normalizeTitle q) (normalizeTitle r.primaryTitle) * 10 <
          3 * uniCount (normalizeTitle q) (normalizeTitle r.primaryTitle))
  · intro h hc
    obtain ⟨hu, hle⟩ := hc
    have hup : (0 : ℚ) < uniCount (normalizeTitle q) (normalizeTitle r.primaryTitle) :=
      Nat.cast_pos.mpr (Nat.pos_of_ne_zero hu)
    rw [div_lt_div_iff₀ hup (by norm_num)] at h
    have hlt : interCount (normalizeTitle q) (normalizeTitle r.primaryTitle) * 10 <
        3 * uniCount (normalizeTitle q) (normalizeTitle r.primaryTitle) := by
      exact_mod_cast h
    omega

theorem bestFuzzy_eq_none {q : String} {corpus : List MovieRecord}
    (h : ∀ r ∈ corpus, passesThreshold q r = false) : bestFuzzy q corpus = none := by
  unfold bestFuzzy fuzzyCandidates
  have hf : corpus.filter (passesThreshold q) = [] := by
    apply List.filter_eq_nil_iff.mpr
    intro a ha
    rw [h a ha]
    simp
  rw [hf]

/-! ## Claim theorems -/

/-- Claim C1: for every fitted model (any similarity index) and every query
vector, the output of `rank` is sorted non-increasing by score with ties broken
by `numVotes` descending then id ascending (`rankLE` pairwise), and the row at
the excluded index — the query's own row — does not appear in the output. -/
theorem rank_sorted_excludes_query (idx : SimIndex) (q : List ℝ) (ex : Nat) :
    (rank idx q ex).Pairwise rankLE ∧ ∀ s ∈ rank idx q ex, s.rowIndex ≠ ex := by
  constructor
  · have hs := @List.sorted_mergeSort Scored rankLEb rankLEb_trans rankLEb_total
      (candidates idx q ex)
    unfold rank
    exact hs.imp fun hab => rankLEb_eq_true.mp hab
  · intro s hs
    unfold rank at hs
    exact mem_candidates_ne (List.mem_mergeSort.mp hs)

/-- Claim C2: for every pair of rows of a built index the cosine-similarity
score lies in the closed interval [0, 1]: TF-IDF coordinates are non-negative
and every row is L2-normalized (or zero). -/
theorem simScore_in_unit_interval (w : FeatureWeights) (corpus : List MovieRecord)
    (i j : Nat) :
    0 ≤ simScore (buildIndex w corpus) i j ∧ simScore (buildIndex w corpus) i j ≤ 1 := by
  obtain ⟨hnni, hsqi⟩ := buildIndex_row_props w corpus i
  obtain ⟨hnnj, hsqj⟩ := buildIndex_row_props w corpus j
  unfold simScore
  constructor
  · exact dot_nonneg_of_nonneg hnni hnnj
  · have h := dot_le_half_sumSq ((buildIndex w corpus).matrix.getD i [])
      ((buildIndex w corpus).matrix.getD j [])
    linarith

/-- Claim C3 (counterexample): the claim "transform(d) has Euclidean norm 1
whenever d has at least one token" fails at the document `["z"]` under a model
fitted on `[["a"]]` — every token of the document is outside the fitted
vocabulary, so the vector is zero and its norm is 0, not 1. -/
theorem transform_norm_counterexample :
    (["z"] : List String) ≠ [] ∧ l2norm (transform ["z"] (fit [["a"]])) ≠ 1 := by
  refine ⟨by decide, ?_⟩
  have hvocab : (fit [["a"]]).vocab = ["a"] := by decide
  have htf : tf ["z"] "a" = 0 := by decide
  have hraw : rawVec (fit [["a"]]) ["z"] = [(0 : ℝ)] := by
    unfold rawVec
    rw [hvocab]
    simp [htf]
  have hl : l2norm (rawVec (fit [["a"]]) ["z"]) = 0 := by
    rw [hraw]
    unfold l2norm
    have : sumSq [(0 : ℝ)] = 0 := by simp [sumSq]
    rw [this]
    exact Real.sqrt_zero
  unfold transform
  rw [if_pos hl, hl]
  exact zero_ne_one

/-- Claim C3 (amended): for every document `d`, `transform(d, model)` has
Euclidean norm 1 if `d` has at least one token present in the fitted
vocabulary, and is the zero vector if no token of `d` is in the vocabulary (in
particular when `d` has zero tokens); out-of-vocabulary terms contribute
nothing and never cause failure. -/
theorem transform_norm_amended (m : TfidfModel) (d : List String) :
    ((∃ t ∈ d, t ∈ m.vocab) → l2norm (transform d m) = 1) ∧
      ((∀ t ∈ d, t ∉ m.vocab) → transform d m = List.replicate m.vocab.length 0) :=
  ⟨fun h => l2norm_transform_eq_one h, fun h => transform_zero_of_oov h⟩

/-- Claim C4: for every movie of a built index, its cosine similarity to itself
is exactly 1 when its feature document is non-empty (equivalently, its vector
is non-zero), and when its token sequence is empty its row is the zero vector
and its similarity to everything — itself included — is 0. -/
theorem self_similarity (w : FeatureWeights) (corpus : List MovieRecord) (i : Nat)
    (h : i < corpus.length) :
    (buildDocument w (corpus.getD i defaultRecord) ≠ [] →
        simScore (buildIndex w corpus) i i = 1) ∧
      (buildDocument w (corpus.getD i defaultRecord) = [] →
        (buildIndex w corpus).matrix.getD i [] =
            List.replicate (vocabOf (corpus.map (buildDocument w))).length 0 ∧
          ∀ j, simScore (buildIndex w corpus) i j = 0 ∧
            simScore (buildIndex w corpus) j i = 0) := by
  have hrow := buildIndex_row_eq w corpus i h
  constructor
  · intro hne
    have hmemrec : corpus.getD i defaultRecord ∈ corpus := by
      rw [List.getD_eq_getElem?_getD, List.getElem?_eq_getElem h]
      exact List.getElem_mem h
    have hdmem : buildDocument w (corpus.getD i defaultRecord) ∈
        corpus.map (buildDocument w) := List.mem_map_of_mem _ hmemrec
    obtain ⟨t, ht⟩ : ∃ t, t ∈ buildDocument w (corpus.getD i defaultRecord) := by
      cases hd : buildDocument w (corpus.getD i defaultRecord) with
      | nil => exact absurd hd hne
      | cons a l => exact ⟨a, List.mem_cons_self a l⟩
    have htv : t ∈ (fit (corpus.map (buildDocument w))).vocab :=
      mem_vocabOf.mpr ⟨_, hdmem, ht⟩
    have hone := sumSq_transform_eq_one ⟨t, ht, htv⟩
    unfold simScore
    rw [hrow, dot_self_eq_sumSq]
    exact hone
  · intro hnil
    have hoov : ∀ t ∈ buildDocument w (corpus.getD i defaultRecord),
        t ∉ (fit (corpus.map (buildDocument w))).vocab := by
      rw [hnil]
      intro t ht
      exact absurd ht (List.not_mem_nil t)
    have hz := transform_zero_of_oov hoov
    refine ⟨by rw [hrow, hz]; rfl, ?_⟩
    intro j
    have hzero : ∀ x ∈ (buildIndex w corpus).matrix.getD i [], x = (0 : ℝ) := by
      rw [hrow, hz]
      intro x hx
      exact List.eq_of_mem_replicate hx
    exact ⟨dot_zero_left hzero _, dot_zero_right hzero _⟩

/-- Witness for claim C4 at a concrete two-movie corpus: the first movie's
document is non-empty and its self-similarity is exactly 1. -/
theorem self_similarity_witness :
    0 < sampleCorpus.length ∧
      buildDocument sampleWeights (sampleCorpus.getD 0 defaultRecord) ≠ [] ∧
      simScore (buildIndex sampleWeights sampleCorpus) 0 0 = 1 :=
  ⟨by decide, by decide,
    (self_similarity sampleWeights sampleCorpus 0 (by decide)).1 (by decide)⟩

/-- Claim C5: for every fit over `N` documents and every vocabulary term with
document frequency `df`, the inverse document frequency equals
`log((1 + N) / (1 + df)) + 1` and is strictly positive. -/
theorem idf_formula_positive (docs : List (List String)) (t : String)
    (h : t ∈ vocabOf docs) :
    (fit docs).idfOf t = Real.log ((1 + docs.length) / (1 + df docs t)) + 1 ∧
      0 < (fit docs).idfOf t :=
  ⟨rfl, idf_pos (df_le_length docs t)⟩

/-- Witness for claim C5 at a concrete two-document corpus. -/
theorem idf_formula_positive_witness :
    "a" ∈ vocabOf [["a"], ["a", "b"]] ∧ 0 < (fit [["a"], ["a", "b"]]).idfOf "a" :=
  ⟨by decide, (idf_formula_positive [["a"], ["a", "b"]] "a" (by decide)).2⟩

/-- Claim C6: whenever an exact normalized-title match exists, `resolve`
returns one of the exact matches (a fuzzy match is never chosen over an
existing exact match) and the returned record is maximal under `canonRel`:
every other record of the same normalized title has strictly fewer votes, or
equal votes and an id no smaller. -/
theorem resolve_prefers_exact (q : String) (fz : Bool) (corpus : List MovieRecord)
    (h : exactMatches q corpus ≠ []) :
    ∃ r, resolve q fz corpus = some r ∧ r ∈ exactMatches q corpus ∧
      ∀ x ∈ exactMatches q corpus, canonRel r x := by
  obtain ⟨r, hpick, hmem, hall⟩ := pickCanonical_spec h
  refine ⟨r, ?_, hmem, hall⟩
  unfold resolve
  rw [hpick]

/-- Witness for claim C6: the query "matrix" has an exact normalized match in
the concrete corpus and `resolve` picks it. -/
theorem resolve_prefers_exact_witness :
    exactMatches "matrix" sampleCorpus ≠ [] ∧
      ∃ r, resolve "matrix" true sampleCorpus = some r ∧
        r ∈ exactMatches "matrix" sampleCorpus ∧
        ∀ x ∈ exactMatches "matrix" sampleCorpus, canonRel r x :=
  ⟨by decide, resolve_prefers_exact "matrix" true sampleCorpus (by decide)⟩

/-- Claim C7: whenever the resolver yields `NotFound` — in particular when no
exact normalized match exists and either fuzzy matching is disabled or every
fuzzy score is below the threshold — `resolve` returns `none` and `recommend`
returns the typed not-found failure with no partial results. -/
theorem recommend_propagates_notFound (title : String) (k : Nat) (fz : Bool)
    (corpus : List MovieRecord) (matrix : List (List ℝ))
    (hex : exactMatches title corpus = [])
    (hfz : fz = false ∨ ∀ r ∈ corpus, fuzzyScore title r < fuzzyThreshold) :
    resolve title fz corpus = none ∧
      recommend title k fz ⟨corpus, matrix⟩ = .error .notFound := by
  have hres : resolve title fz corpus = none := by
    unfold resolve
    rw [hex]
    rcases hfz with rfl | hall
    · simp [pickCanonical]
    · have hb : bestFuzzy title corpus = none :=
        bestFuzzy_eq_none fun r hr => (passes_false_iff title r).mpr (hall r hr)
      cases fz <;> simp [pickCanonical, hb]
  refine ⟨hres, ?_⟩
  unfold recommend
  have hrec : (⟨corpus, matrix⟩ : SimIndex).records = corpus := rfl
  rw [hrec, hres]

/-- Witness for claim C7: an unmatched query against the concrete corpus has no
exact match, scores below the threshold everywhere, and `recommend` fails with
the typed not-found value. -/
theorem recommend_propagates_notFound_witness :
    exactMatches "zzzzqqq" sampleCorpus = [] ∧
      (∀ r ∈ sampleCorpus, fuzzyScore "zzzzqqq" r < fuzzyThreshold) ∧
      recommend "zzzzqqq" 10 true ⟨sampleCorpus, []⟩ = .error .notFound := by
  have hall : ∀ r ∈ sampleCorpus, fuzzyScore "zzzzqqq" r < fuzzyThreshold := by
    intro r hr
    simp only [sampleCorpus, List.mem_cons, List.not_mem_nil, or_false] at hr
    rcases hr with rfl | rfl
    · exact (passes_false_iff "zzzzqqq" sampleA).mp (by decide)
    · exact (passes_false_iff "zzzzqqq" sampleB).mp (by decide)
  exact ⟨by decide, hall,
    (recommend_propagates_notFound "zzzzqqq" 10 true sampleCorpus [] (by decide)
      (Or.inr hall)).2⟩

/-- Claim C8: when the requested `k` is at least the number of available
candidates (corpus size minus the excluded query row), `rank` returns all of
them — the ranking has exactly `corpus.length - 1` entries and taking `k` of
them drops nothing; no error is possible. -/
theorem rank_returns_all_available (w : FeatureWeights) (corpus : List MovieRecord)
    (q : List ℝ) (ex k : Nat) (hex : ex < corpus.length)
    (hk : corpus.length - 1 ≤ k) :
    (rank (buildIndex w corpus) q ex).length = corpus.length - 1 ∧
      (rank (buildIndex w corpus) q ex).take k = rank (buildIndex w corpus) q ex := by
  have hlen : (rank (buildIndex w corpus) q ex).length = corpus.length - 1 := by
    unfold rank
    rw [List.length_mergeSort]
    exact length_candidates q hex
  exact ⟨hlen, List.take_of_length_le (by rw [hlen]; exact hk)⟩

/-- Witness for claim C8: a two-movie corpus with `k = 5` returns the single
available candidate. -/
theorem rank_returns_all_available_witness :
    0 < sampleCorpus.length ∧ sampleCorpus.length - 1 ≤ 5 ∧
      ((rank (buildIndex sampleWeights sampleCorpus) [] 0).length =
          sampleCorpus.length - 1 ∧
        (rank (buildIndex sampleWeights sampleCorpus) [] 0).take 5 =
          rank (buildIndex sampleWeights sampleCorpus) [] 0) :=
  ⟨by decide, by decide,
    rank_returns_all_available sampleWeights sampleCorpus [] 0 5 (by decide) (by decide)⟩

/-- Claim C9: a search query whose trimmed length is below 2 characters is
rejected before anything else happens: `searchMovies` returns `{ results: [] }`
and no request is issued, for any cache contents and any would-be fetch
outcome. -/
theorem searchMovies_rejects_short_query {α : Type} (q : String)
    (cache : Option (SearchPayload α)) (fetch : FetchOutcome (SearchPayload α))
    (h : (jsTrim q).length < 2) :
    searchMovies q cache fetch = (.ok ⟨[]⟩, false) := by
  unfold searchMovies
  rw [if_pos (Or.inr h)]

/-- Witness for claim C9 at the one-character query "a". -/
theorem searchMovies_rejects_short_query_witness :
    (jsTrim "a").length < 2 ∧
      searchMovies (α := Nat) "a" none (.reject ⟨"TypeError", "net"⟩) =
        (.ok ⟨[]⟩, false) :=
  ⟨by decide, searchMovies_rejects_short_query "a" none _ (by decide)⟩

/-- Claim C10: an aborted request is swallowed — `searchMovies` returns
`{ results: [] }` and `getRecommendations` returns `{ recommendations: [] }`,
indistinguishable from an empty result — while every non-abort error
(a rejected fetch with another name, or the `Error` thrown for a non-ok
response) is rethrown. -/
theorem abort_swallowed_nonabort_rethrown {α : Type} (q : String) (e : JSError)
    (m1 m2 : String) (st1 st2 : Nat) (det : Option String)
    (b1 : SearchPayload α) (b2 : RecPayload α)
    (hq : ¬(q = "" ∨ (jsTrim q).length < 2)) (he : e.name ≠ "AbortError") :
    searchMovies (α := α) q none (.reject ⟨"AbortError", m1⟩) = (.ok ⟨[]⟩, true) ∧
      getRecommendations (α := α) none (.reject ⟨"AbortError", m2⟩) = (.ok ⟨[]⟩, true) ∧
      searchMovies (α := α) q none (.reject e) = (.error e, true) ∧
      getRecommendations (α := α) none (.reject e) = (.error e, true) ∧
      searchMovies (α := α) q none (.response false st1 det b1) =
        (.error ⟨"Error", "Search failed: " ++ toString st1⟩, true) ∧
      getRecommendations (α := α) none (.response false st2 det b2) =
        (.error ⟨"Error", det.getD ("Request failed: " ++ toString st2)⟩, true) := by
  refine ⟨?_, ?_, ?_, ?_, ?_, ?_⟩ <;>
    simp [searchMovies, getRecommendations, handleCatch, hq, he]

/-- Witness for claim C10 at the query "matrix" and a concrete non-abort
error. -/
theorem abort_swallowed_nonabort_rethrown_witness :
    ¬("matrix" = "" ∨ (jsTrim "matrix").length < 2) ∧
      (⟨"TypeError", "boom"⟩ : JSError).name ≠ "AbortError" ∧
      (searchMovies (α := Nat) "matrix" none (.reject ⟨"AbortError", "c"⟩) =
          (.ok ⟨[]⟩, true) ∧
        getRecommendations (α := Nat) none (.reject ⟨"AbortError", "d"⟩) =
          (.ok ⟨[]⟩, true) ∧
        searchMovies (α := Nat) "matrix" none (.reject ⟨"TypeError", "boom"⟩) =
          (.error ⟨"TypeError", "boom"⟩, true) ∧
        getRecommendations (α := Nat) none (.reject ⟨"TypeError", "boom"⟩) =
          (.error ⟨"TypeError", "boom"⟩, true) ∧
        searchMovies (α := Nat) "matrix" none
            (.response false 500 (some "oops") ⟨[]⟩) =
          (.error ⟨"Error", "Search failed: " ++ toString 500⟩, true) ∧
        getRecommendations (α := Nat) none
            (.response false 404 (some "oops") ⟨[]⟩) =
          (.error ⟨"Error", (some "oops").getD ("Request failed: " ++ toString 404)⟩,
            true)) :=
  ⟨by decide, by decide,
    abort_swallowed_nonabort_rethrown "matrix" ⟨"TypeError", "boom"⟩ "c" "d" 500 404
      (some "oops") ⟨[]⟩ ⟨[]⟩ (by decide) (by decide)⟩
